import Mathlib

set_option maxRecDepth 4000
set_option maxHeartbeats 1000000

/-!
Shallow embedding of `genassign.py` (string-level logic of the
assignment/solution generation pipeline): the mask expander `demask`,
the visibility toggle `set_hidden`, the jinja-style renderer
`render_file`, the per-record driver `gen_files`/`compile_files`
(modelled as an event trace with Python-exception propagation), and the
output placement `move_pdf` (modelled over a small file-system state).

Strings are modelled as `List Char`; documents as lists of lines
(`List (List Char)`), matching the line-by-line file rewrite that the
source performs.
-/

/-- Python `s.replace(p, r)` (leftmost, non-overlapping, replace all),
written with a fuel argument so that the recursion is structural; the
fuel is always instantiated with `s.length`, which suffices because
each step consumes at least one character of `s` (the source never
calls `replace` with an empty pattern, and the model keeps the string
unchanged in that case). -/
def replaceAllF (p r : List Char) : Nat → List Char → List Char
  | _, [] => []
  | 0, c :: cs => c :: cs
  | fuel+1, c :: cs =>
    if p.isPrefixOf (c :: cs) && !p.isEmpty then
      r ++ replaceAllF p r fuel ((c :: cs).drop p.length)
    else
      c :: replaceAllF p r fuel cs

/-- Python `s.replace(p, r)`. -/
def replaceAll (p r s : List Char) : List Char := replaceAllF p r s.length s

theorem replaceAllF_nil (p r : List Char) (f : Nat) : replaceAllF p r f [] = [] := by
  cases f <;> rfl

theorem replaceAllF_congr (p r : List Char) :
    ∀ f1 f2 s, s.length ≤ f1 → s.length ≤ f2 →
      replaceAllF p r f1 s = replaceAllF p r f2 s := by
  intro f1
  induction f1 with
  | zero =>
    intro f2 s h1 h2
    have hs : s = [] := List.length_eq_zero.mp (Nat.le_zero.mp h1)
    subst hs
    rw [replaceAllF_nil, replaceAllF_nil]
  | succ f ih =>
    intro f2 s h1 h2
    cases s with
    | nil => rw [replaceAllF_nil, replaceAllF_nil]
    | cons c cs =>
      cases f2 with
      | zero => simp at h2
      | succ g =>
        show replaceAllF p r (f+1) (c :: cs) = replaceAllF p r (g+1) (c :: cs)
        rw [replaceAllF, replaceAllF]
        by_cases hc : (p.isPrefixOf (c :: cs) && !p.isEmpty) = true
        · rw [if_pos hc, if_pos hc]
          have hp : p ≠ [] := by
            intro hp0
            subst hp0
            simp at hc
          have hplen : 1 ≤ p.length := by
            cases p with
            | nil => exact absurd rfl hp
            | cons a as => simp
          have hd1 : ((c :: cs).drop p.length).length ≤ f := by
            rw [List.length_drop]
            simp at h1
            simp
            omega
          have hd2 : ((c :: cs).drop p.length).length ≤ g := by
            rw [List.length_drop]
            simp at h2
            simp
            omega
          rw [ih g _ hd1 hd2]
        · rw [if_neg hc, if_neg hc]
          have hc1 : cs.length ≤ f := by simp at h1; omega
          have hc2 : cs.length ≤ g := by simp at h2; omega
          rw [ih g cs hc1 hc2]

theorem replaceAll_nil (p r : List Char) : replaceAll p r [] = [] := rfl

theorem replaceAll_cons (p r : List Char) (c : Char) (cs : List Char) :
    replaceAll p r (c :: cs) =
      if p.isPrefixOf (c :: cs) && !p.isEmpty then
        r ++ replaceAll p r ((c :: cs).drop p.length)
      else
        c :: replaceAll p r cs := by
  show replaceAllF p r (cs.length + 1) (c :: cs) = _
  rw [replaceAllF]
  by_cases hc : (p.isPrefixOf (c :: cs) && !p.isEmpty) = true
  · rw [if_pos hc, if_pos hc]
    have hp : p ≠ [] := by
      intro hp0; subst hp0; simp at hc
    have hplen : 1 ≤ p.length := by
      cases p with
      | nil => exact absurd rfl hp
      | cons a as => simp
    have h1 : ((c :: cs).drop p.length).length ≤ cs.length := by
      rw [List.length_drop]; simp; omega
    rw [replaceAllF_congr p r cs.length ((c :: cs).drop p.length).length _ h1 le_rfl]
    rfl
  · rw [if_neg hc, if_neg hc]
    rfl

/-- Unfolding of `List.isPrefixOf` on `Char` lists, elementwise. -/
theorem isPrefixOf_cons_iff {a b : Char} {as bs : List Char} :
    (a :: as).isPrefixOf (b :: bs) = true ↔ a = b ∧ as.isPrefixOf bs = true := by
  simp [List.isPrefixOf]

theorem isPrefixOf_self_append (p t : List Char) : p.isPrefixOf (p ++ t) = true := by
  induction p with
  | nil => simp [List.isPrefixOf]
  | cons a as ih => simp [List.isPrefixOf, ih]

theorem isPrefixOf_ex {p s : List Char} (h : p.isPrefixOf s = true) : ∃ t, s = p ++ t := by
  induction p generalizing s with
  | nil => exact ⟨s, rfl⟩
  | cons a as ih =>
    cases s with
    | nil => simp [List.isPrefixOf] at h
    | cons b bs =>
      obtain ⟨hab, h2⟩ := isPrefixOf_cons_iff.mp h
      obtain ⟨t, ht⟩ := ih h2
      exact ⟨t, by rw [hab, ht]; rfl⟩

theorem isPrefixOf_getElem {p s : List Char} (h : p.isPrefixOf s = true)
    {k : Nat} (hk : k < p.length) : s[k]? = p[k]? := by
  obtain ⟨t, rfl⟩ := isPrefixOf_ex h
  exact List.getElem?_append_left hk

theorem replaceAll_pos (p r t : List Char) (hp : p ≠ []) :
    replaceAll p r (p ++ t) = r ++ replaceAll p r t := by
  cases p with
  | nil => exact absurd rfl hp
  | cons a as =>
    rw [show (a :: as) ++ t = a :: (as ++ t) from rfl, replaceAll_cons]
    have h1 : (a :: as).isPrefixOf (a :: (as ++ t)) = true := isPrefixOf_self_append _ _
    have h2 : ((a :: as).isPrefixOf (a :: (as ++ t)) && !(a :: as).isEmpty) = true := by
      rw [h1]; rfl
    rw [if_pos h2]
    have h3 : (a :: (as ++ t)).drop (a :: as).length = t := by
      show ((a :: as) ++ t).drop (a :: as).length = t
      exact List.drop_left _ _
    rw [h3]

theorem replaceAll_neg (p r : List Char) (c : Char) (cs : List Char)
    (h : p.isPrefixOf (c :: cs) = false) :
    replaceAll p r (c :: cs) = c :: replaceAll p r cs := by
  rw [replaceAll_cons]
  have : (p.isPrefixOf (c :: cs) && !p.isEmpty) = false := by rw [h]; rfl
  rw [if_neg (by simp [this])]

/-- Whether `p` occurs as a contiguous substring: one check at every
position of `s`. -/
def occurs (p : List Char) : List Char → Bool
  | [] => p.isEmpty
  | c :: cs => p.isPrefixOf (c :: cs) || occurs p cs

theorem occurs_append_right {p : List Char} :
    ∀ (a : List Char) {b : List Char}, occurs p (a ++ b) = false → occurs p b = false := by
  intro a
  induction a with
  | nil => intro b h; exact h
  | cons x a2 ih =>
    intro b h
    rw [show (x :: a2) ++ b = x :: (a2 ++ b) from rfl, occurs] at h
    exact ih (by simpa using (Bool.or_eq_false_iff.mp h).2)

/-- A pattern starting with `hd` matches nowhere inside an `hd`-free
prefix: replacement walks straight past it. -/
theorem replaceAll_skip {hd : Char} {q r : List Char} :
    ∀ (a t : List Char), (∀ x ∈ a, x ≠ hd) →
      replaceAll (hd :: q) r (a ++ t) = a ++ replaceAll (hd :: q) r t := by
  intro a
  induction a with
  | nil => intro t _; rfl
  | cons x a2 ih =>
    intro t ha
    have hx : x ≠ hd := ha x (by simp)
    have hpre : (hd :: q).isPrefixOf (x :: (a2 ++ t)) = false := by
      rw [Bool.eq_false_iff]
      intro hcontra
      exact hx (isPrefixOf_cons_iff.mp hcontra).1.symm
    rw [show (x :: a2) ++ t = x :: (a2 ++ t) from rfl, replaceAll_neg _ _ _ _ hpre,
      ih t (fun y hy => ha y (by simp [hy]))]
    rfl

/-- On an entirely `hd`-free string, replacing a pattern that starts
with `hd` is the identity. -/
theorem replaceAll_clean_id {hd : Char} {q r : List Char} {s : List Char}
    (hs : ∀ x ∈ s, x ≠ hd) : replaceAll (hd :: q) r s = s := by
  have := @replaceAll_skip hd q r s [] hs
  simpa [replaceAll_nil] using this

/-- Replacing any pattern by a string of the form `hd :: u` cannot
create a new prefix occurrence of an `hd`-free word `w`. -/
theorem replaceAll_pre_stable {hd : Char} {p u : List Char} :
    ∀ (n : Nat) (cs w : List Char), cs.length ≤ n → (∀ x ∈ w, x ≠ hd) →
      w.isPrefixOf cs = false → w.isPrefixOf (replaceAll p (hd :: u) cs) = false := by
  intro n
  induction n with
  | zero =>
    intro cs w hlen hw h
    have hcs : cs = [] := List.length_eq_zero.mp (Nat.le_zero.mp hlen)
    subst hcs
    rw [replaceAll_nil]
    exact h
  | succ n ih =>
    intro cs w hlen hw h
    cases cs with
    | nil => rw [replaceAll_nil]; exact h
    | cons c cs2 =>
      rw [replaceAll_cons]
      by_cases hm : (p.isPrefixOf (c :: cs2) && !p.isEmpty) = true
      · rw [if_pos hm]
        cases w with
        | nil => simp [List.isPrefixOf] at h
        | cons y w2 =>
          have hy : y ≠ hd := hw y (by simp)
          rw [show (hd :: u) ++ replaceAll p (hd :: u) ((c :: cs2).drop p.length)
              = hd :: (u ++ replaceAll p (hd :: u) ((c :: cs2).drop p.length)) from rfl]
          rw [Bool.eq_false_iff]
          intro hcontra
          exact hy (isPrefixOf_cons_iff.mp hcontra).1
      · rw [if_neg hm]
        cases w with
        | nil => simp [List.isPrefixOf] at h
        | cons y w2 =>
          by_cases hyc : y = c
          · subst hyc
            have h2 : w2.isPrefixOf cs2 = false := by
              rw [Bool.eq_false_iff] at h ⊢
              intro hcontra
              exact h (isPrefixOf_cons_iff.mpr ⟨rfl, hcontra⟩)
            have := ih cs2 w2 (by simp at hlen; omega)
              (fun x hx => hw x (by simp [hx])) h2
            rw [Bool.eq_false_iff] at this ⊢
            intro hcontra
            exact this (isPrefixOf_cons_iff.mp hcontra).2
          · rw [Bool.eq_false_iff]
            intro hcontra
            exact hyc (isPrefixOf_cons_iff.mp hcontra).1

/-- If `q` and `u` disagree at some position inside both, then `q` is a
prefix of no extension of `u`. -/
theorem not_isPrefixOf_of_mismatch {q u : List Char}
    (hk : ∃ k, k < q.length ∧ k < u.length ∧ q[k]? ≠ u[k]?) :
    ∀ z, q.isPrefixOf (u ++ z) = false := by
  intro z
  obtain ⟨k, hkq, hku, hne⟩ := hk
  rw [Bool.eq_false_iff]
  intro hcontra
  have h1 : (u ++ z)[k]? = q[k]? := isPrefixOf_getElem hcontra hkq
  have h2 : (u ++ z)[k]? = u[k]? := List.getElem?_append_left hku
  exact hne (h1 ▸ h2)

/-- Replacing `hd :: q` by `hd :: u` is idempotent when `q` and `u` are
`hd`-free and differ at some common position (so the replacement text
can never be re-matched). -/
theorem replaceAll_idem {hd : Char} {q u : List Char}
    (hq : ∀ x ∈ q, x ≠ hd) (hu : ∀ x ∈ u, x ≠ hd)
    (hk : ∃ k, k < q.length ∧ k < u.length ∧ q[k]? ≠ u[k]?) :
    ∀ (n : Nat) (s : List Char), s.length ≤ n →
      replaceAll (hd :: q) (hd :: u) (replaceAll (hd :: q) (hd :: u) s) =
        replaceAll (hd :: q) (hd :: u) s := by
  intro n
  induction n with
  | zero =>
    intro s hlen
    have hs : s = [] := List.length_eq_zero.mp (Nat.le_zero.mp hlen)
    subst hs
    rw [replaceAll_nil, replaceAll_nil]
  | succ n ih =>
    intro s hlen
    cases s with
    | nil => rw [replaceAll_nil, replaceAll_nil]
    | cons c cs =>
      by_cases hm : (hd :: q).isPrefixOf (c :: cs) = true
      · obtain ⟨t, ht⟩ := isPrefixOf_ex hm
        rw [ht, replaceAll_pos _ _ _ (by simp)]
        have htlen : t.length ≤ n := by
          have h2 := congrArg List.length ht
          simp at h2 hlen
          omega
        have hA := ih t htlen
        rw [show (hd :: u) ++ replaceAll (hd :: q) (hd :: u) t
            = hd :: (u ++ replaceAll (hd :: q) (hd :: u) t) from rfl]
        have hnopre : (hd :: q).isPrefixOf
            (hd :: (u ++ replaceAll (hd :: q) (hd :: u) t)) = false := by
          rw [Bool.eq_false_iff]
          intro hcontra
          have := (isPrefixOf_cons_iff.mp hcontra).2
          rw [not_isPrefixOf_of_mismatch hk] at this
          exact Bool.false_ne_true this
        rw [replaceAll_neg _ _ _ _ hnopre,
          replaceAll_skip u (replaceAll (hd :: q) (hd :: u) t) hu, hA]
      · rw [Bool.not_eq_true] at hm
        rw [replaceAll_neg _ _ _ _ hm]
        have hcslen : cs.length ≤ n := by simp at hlen; omega
        have hB : (hd :: q).isPrefixOf (c :: replaceAll (hd :: q) (hd :: u) cs) = false := by
          by_cases hc : c = hd
          · subst hc
            have hq2 : q.isPrefixOf cs = false := by
              rw [Bool.eq_false_iff] at hm ⊢
              intro hcontra
              exact hm (isPrefixOf_cons_iff.mpr ⟨rfl, hcontra⟩)
            have := @replaceAll_pre_stable c (c :: q) u n cs q hcslen hq hq2
            rw [Bool.eq_false_iff] at this ⊢
            intro hcontra
            exact this (isPrefixOf_cons_iff.mp hcontra).2
          · rw [Bool.eq_false_iff]
            intro hcontra
            exact hc ((isPrefixOf_cons_iff.mp hcontra).1).symm
        rw [replaceAll_neg _ _ _ _ hB, ih cs hcslen]

/-- Round trip: replacing `hd :: F` by `hd :: T` and then `hd :: T` by
`hd :: F` restores any string in which `hd :: T` did not occur. -/
theorem replaceAll_roundtrip {hd : Char} {F T : List Char}
    (hF : ∀ x ∈ F, x ≠ hd) (hT : ∀ x ∈ T, x ≠ hd) :
    ∀ (n : Nat) (s : List Char), s.length ≤ n → occurs (hd :: T) s = false →
      replaceAll (hd :: T) (hd :: F) (replaceAll (hd :: F) (hd :: T) s) = s := by
  intro n
  induction n with
  | zero =>
    intro s hlen _
    have hs : s = [] := List.length_eq_zero.mp (Nat.le_zero.mp hlen)
    subst hs
    rw [replaceAll_nil, replaceAll_nil]
  | succ n ih =>
    intro s hlen hocc
    cases s with
    | nil => rw [replaceAll_nil, replaceAll_nil]
    | cons c cs =>
      by_cases hm : (hd :: F).isPrefixOf (c :: cs) = true
      · obtain ⟨t, ht⟩ := isPrefixOf_ex hm
        rw [ht, replaceAll_pos _ _ _ (by simp), replaceAll_pos _ _ _ (by simp)]
        have htlen : t.length ≤ n := by
          have h2 := congrArg List.length ht
          simp at h2 hlen
          omega
        have hocct : occurs (hd :: T) t = false := by
          rw [ht] at hocc
          exact occurs_append_right (hd :: F) hocc
        rw [ih t htlen hocct]
      · rw [Bool.not_eq_true] at hm
        rw [replaceAll_neg _ _ _ _ hm]
        have hoccs : occurs (hd :: T) cs = false := by
          rw [occurs] at hocc
          exact (Bool.or_eq_false_iff.mp hocc).2
        have hnotpre : (hd :: T).isPrefixOf (c :: cs) = false := by
          rw [occurs] at hocc
          exact (Bool.or_eq_false_iff.mp hocc).1
        have hcslen : cs.length ≤ n := by simp at hlen; omega
        have hB : (hd :: T).isPrefixOf (c :: replaceAll (hd :: F) (hd :: T) cs) = false := by
          by_cases hc : c = hd
          · subst hc
            have hT2 : T.isPrefixOf cs = false := by
              rw [Bool.eq_false_iff] at hnotpre ⊢
              intro hcontra
              exact hnotpre (isPrefixOf_cons_iff.mpr ⟨rfl, hcontra⟩)
            have := @replaceAll_pre_stable c (c :: F) T n cs T hcslen hT hT2
            rw [Bool.eq_false_iff] at this ⊢
            intro hcontra
            exact this (isPrefixOf_cons_iff.mp hcontra).2
          · rw [Bool.eq_false_iff]
            intro hcontra
            exact hc ((isPrefixOf_cons_iff.mp hcontra).1).symm
        rw [replaceAll_neg _ _ _ _ hB, ih cs hcslen hoccs]

/-! ### Tokens and the visibility toggle (`set_hidden`, genassign.py 509-540) -/

/-- The raw string `r"\hiddentrue"`. -/
def hiddentrue : List Char := "\\hiddentrue".toList

/-- The raw string `r"\hiddenfalse"`. -/
def hiddenfalse : List Char := "\\hiddenfalse".toList

/-- Source `set_hidden(texfile, hidden)`: the document is modelled as the list
of its lines (as produced by the source's line iteration); every line
is rewritten with one `str.replace`, whose direction is selected by
`hidden` (`str_find`/`str_replace` in the source).  The `.bak` backup
file is outside the document model. -/
def set_hidden (hidden : Bool) (doc : List (List Char)) : List (List Char) :=
  doc.map fun line =>
    if hidden then replaceAll hiddenfalse hiddentrue line
    else replaceAll hiddentrue hiddenfalse line

/-! ### The mask expander (`demask`, genassign.py 485-506) -/

/-- Source `[int(s) for s in re.findall(r"\#(\d)", mask)]`: scan left to
right; at a `#` followed by a decimal digit record the digit's value
and continue after the two matched characters, otherwise advance one
character.  Note the regex digit class is `\d`, i.e. 0-9, not 1-9. -/
def findRefs : List Char → List Nat
  | [] => []
  | [_] => []
  | c1 :: c2 :: rest =>
    if c1 = '#' ∧ c2.isDigit then (c2.toNat - 48) :: findRefs rest
    else findRefs (c2 :: rest)

/-- Python `str(i)` for the single-digit reference indices `i` that
`findRefs` can produce. -/
def digitChar : Nat → Char
  | 0 => '0'
  | 1 => '1'
  | 2 => '2'
  | 3 => '3'
  | 4 => '4'
  | 5 => '5'
  | 6 => '6'
  | 7 => '7'
  | 8 => '8'
  | 9 => '9'
  | _ => '?'

/-- The two-character reference token `"#" + str(i)`. -/
def refTok (i : Nat) : List Char := ['#', digitChar i]

/-- Python list indexing `values[i]` including the negative-index rule
(`values[-k]` is `values[len values - k]`); `IndexError` is `none`. -/
def pyGet (xs : List (List Char)) (i : Int) : Option (List Char) :=
  if 0 ≤ i then xs[i.toNat]?
  else if (-i).toNat ≤ xs.length then xs[xs.length - (-i).toNat]? else none

/-- One iteration of the loop in `demask`:
`mask = mask.replace("#" + str(i), str(values[i - 1]))`, `none` when
the indexing raises.  Values are rows of strings, on which `str` is
the identity. -/
def demaskStep (values : List (List Char)) (m : List Char) (i : Nat) : Option (List Char) :=
  (pyGet values ((i : Int) - 1)).map fun v => replaceAll (refTok i) v m

/-- Source `demask(values, mask)` (genassign.py 485-506): sequential
replacement over the reference indices found in the original mask, in
order of occurrence and including duplicates; `none` models an
uncaught `IndexError`. -/
def demask (values : List (List Char)) (mask : List Char) : Option (List Char) :=
  (findRefs mask).foldlM (demaskStep values) mask

/-- Modelled from the spec's words (§4.1 Name Mask Expander), for
comparison with `demask`: simultaneous expansion that replaces every
occurrence of each reference token `#d` (`d` a digit 1-9) by
`values[d-1]`, each occurrence independently of the others. -/
def expandSim (values : List (List Char)) : List Char → List Char
  | [] => []
  | [c] => [c]
  | c1 :: c2 :: rest =>
    if c1 = '#' ∧ '1' ≤ c2 ∧ c2 ≤ '9' then
      (values.getD (c2.toNat - 49) []) ++ expandSim values rest
    else c1 :: expandSim values (c2 :: rest)

/-! ### Roster-mode naming (`moodle` and `main`, genassign.py 622-693) -/

/-- The literal prefix stripped from the `Identifier` column. -/
def participantTok : List Char := "Participant ".toList

/-- Source `df.Identifier.str.replace("Participant ", "")` (genassign.py 643):
replaces every occurrence with the empty string. -/
def moodleID (ident : List Char) : List Char := replaceAll participantTok [] ident

/-- One roster record after `moodle`'s preprocessing; value order is
(MoodleID, FullName, StudentID), matching
`keys = ["MoodleID", "FullName", "StudentID"]`. -/
def moodleValues (ident fullname idnum : List Char) : List (List Char) :=
  [moodleID ident, fullname, idnum]

/-- Source `"#2_#1_assignsubmission_" + params.folder_mask + "_"` (genassign.py 685). -/
def rosterFolderMask (folder_mask : List Char) : List Char :=
  "#2_#1_assignsubmission_".toList ++ folder_mask ++ "_".toList

/-- Source `args.file_mask + "#2_#3"` (genassign.py 684) followed by
`file_mask += params.sol_stem` (genassign.py 349-350). -/
def rosterSolFileMask (file_mask sol_stem : List Char) : List Char :=
  file_mask ++ "#2_#3".toList ++ sol_stem

/-- Where the solutions PDF of one roster record ends up:
`os.path.join(root, folder, file + ".pdf")` as assembled in `move_pdf`
(genassign.py 423-430), with the folder and file names produced by
`demask` in `compile_files` (genassign.py 352-359); `none` when mask
expansion raises. -/
def solutionsPdfPath
    (root file_mask folder_mask sol_stem ident fullname idnum : List Char) :
    Option (List Char) :=
  match demask (moodleValues ident fullname idnum) (rosterSolFileMask file_mask sol_stem),
      demask (moodleValues ident fullname idnum) (rosterFolderMask folder_mask) with
  | some f, some d => some (root ++ "/".toList ++ d ++ "/".toList ++ f ++ ".pdf".toList)
  | _, _ => none

/-! ### Claims C5 and C6: the visibility toggle -/

theorem hf_ht_line_idem (line : List Char) :
    replaceAll hiddenfalse hiddentrue (replaceAll hiddenfalse hiddentrue line) =
      replaceAll hiddenfalse hiddentrue line := by
  have h1 : hiddenfalse = '\\' :: "hiddenfalse".toList := rfl
  have h2 : hiddentrue = '\\' :: "hiddentrue".toList := rfl
  rw [h1, h2]
  exact replaceAll_idem (by decide) (by decide)
    ⟨6, by decide, by decide, by decide⟩ line.length line le_rfl

theorem ht_hf_line_idem (line : List Char) :
    replaceAll hiddentrue hiddenfalse (replaceAll hiddentrue hiddenfalse line) =
      replaceAll hiddentrue hiddenfalse line := by
  have h1 : hiddenfalse = '\\' :: "hiddenfalse".toList := rfl
  have h2 : hiddentrue = '\\' :: "hiddentrue".toList := rfl
  rw [h1, h2]
  exact replaceAll_idem (by decide) (by decide)
    ⟨6, by decide, by decide, by decide⟩ line.length line le_rfl

/-- C5: `set_hidden` is idempotent: for every document text and every
boolean `h`, applying `set_hidden` with the same `h` twice in a row
yields a document textually identical to the result after the first
application. -/
theorem C5_set_hidden_idempotent (doc : List (List Char)) (h : Bool) :
    set_hidden h (set_hidden h doc) = set_hidden h doc := by
  induction doc with
  | nil => rfl
  | cons line rest ih =>
    cases h
    · simpa [set_hidden] using
        And.intro (ht_hf_line_idem line) (by simpa [set_hidden] using ih)
    · simpa [set_hidden] using
        And.intro (hf_ht_line_idem line) (by simpa [set_hidden] using ih)

/-- The solutions-shown state: the `\hiddenfalse` token is present
somewhere and the `\hiddentrue` token occurs nowhere (the spec's
`VisibilityState`: the document is in exactly one of the two states,
encoded by the token physically present in the text). -/
def ShownState (doc : List (List Char)) : Prop :=
  (∃ line ∈ doc, occurs hiddenfalse line = true) ∧
    ∀ line ∈ doc, occurs hiddentrue line = false

theorem set_hidden_roundtrip_aux :
    ∀ (doc : List (List Char)), (∀ line ∈ doc, occurs hiddentrue line = false) →
      set_hidden false (set_hidden true doc) = doc := by
  intro doc
  induction doc with
  | nil => intro _; rfl
  | cons line rest ih =>
    intro hno
    have hline : replaceAll hiddentrue hiddenfalse (replaceAll hiddenfalse hiddentrue line)
        = line := by
      have h1 : hiddenfalse = '\\' :: "hiddenfalse".toList := rfl
      have h2 : hiddentrue = '\\' :: "hiddentrue".toList := rfl
      rw [h1, h2]
      refine replaceAll_roundtrip (by decide) (by decide) line.length line le_rfl ?_
      rw [← h2]
      exact hno line (by simp)
    simpa [set_hidden] using
      And.intro hline (by simpa [set_hidden] using ih fun l hl => hno l (by simp [hl]))

/-- C6: for every document initially in the solutions-shown state,
`set_hidden true` followed by `set_hidden false` restores the document
text exactly (the `.bak` backup file being outside the model). -/
theorem C6_set_hidden_roundtrip (doc : List (List Char)) (hdoc : ShownState doc) :
    set_hidden false (set_hidden true doc) = doc :=
  set_hidden_roundtrip_aux doc hdoc.2

/-- Witness for C6 at a concrete two-line document. -/
theorem C6_set_hidden_roundtrip_witness :
    ShownState ["\\hiddenfalse".toList, "text".toList] ∧
      set_hidden false (set_hidden true ["\\hiddenfalse".toList, "text".toList]) =
        ["\\hiddenfalse".toList, "text".toList] :=
  ⟨by unfold ShownState; decide,
    C6_set_hidden_roundtrip ["\\hiddenfalse".toList, "text".toList]
      (by unfold ShownState; decide)⟩

/-! ### Claim C2: masks without reference tokens -/

/-- No position of `mask` holds a `#` directly followed by a decimal
digit, i.e. the regex `\#(\d)` of `demask` has no match. -/
def NoRefTok (mask : List Char) : Prop :=
  ∀ p ∈ mask.zip mask.tail, ¬(p.1 = '#' ∧ p.2.isDigit)

theorem findRefs_eq_nil : ∀ (mask : List Char), NoRefTok mask → findRefs mask = []
  | [], _ => rfl
  | [_], _ => rfl
  | c1 :: c2 :: rest, h => by
    have h0 : ¬(c1 = '#' ∧ c2.isDigit) := h (c1, c2) (by simp)
    rw [findRefs, if_neg h0]
    exact findRefs_eq_nil (c2 :: rest) fun p hp => h p (List.mem_cons_of_mem _ hp)

/-- C2 (amended): for every values list and every mask in which no `#`
is directly followed by a decimal digit (0-9), `demask` returns the
mask unchanged.  (In particular a `#` followed by a non-digit is not a
reference.) -/
theorem C2_demask_no_token_unchanged (values : List (List Char)) (mask : List Char)
    (h : NoRefTok mask) : demask values mask = some mask := by
  unfold demask
  rw [findRefs_eq_nil mask h]
  rfl

/-- C2 counterexample: `#0` is matched by the regex `\#(\d)` and, via
Python negative indexing `values[0 - 1]`, resolves to the last element
of `values`, so the mask `"#0"` is not returned unchanged. -/
theorem C2_hash_zero_counterexample :
    demask [['a']] ['#', '0'] = some ['a'] ∧ demask [['a']] ['#', '0'] ≠ some ['#', '0'] := by
  decide

/-- Witness for C2 at a concrete token-free mask. -/
theorem C2_demask_no_token_unchanged_witness :
    NoRefTok "a#x#".toList ∧ demask [['v']] "a#x#".toList = some "a#x#".toList :=
  ⟨by unfold NoRefTok; decide,
    C2_demask_no_token_unchanged [['v']] "a#x#".toList (by unfold NoRefTok; decide)⟩

/-! ### Claim C3: single references and repeated occurrences -/

theorem digitChar_isDigit {d : Nat} (h1 : 1 ≤ d) (h9 : d ≤ 9) :
    (digitChar d).isDigit = true := by
  interval_cases d <;> decide

theorem digitChar_toNat {d : Nat} (h1 : 1 ≤ d) (h9 : d ≤ 9) :
    (digitChar d).toNat - 48 = d := by
  interval_cases d <;> decide

theorem findRefs_tok_cons (d : Nat) (h1 : 1 ≤ d) (h9 : d ≤ 9) (rest : List Char) :
    findRefs (refTok d ++ rest) = d :: findRefs rest := by
  show findRefs ('#' :: digitChar d :: rest) = _
  rw [findRefs, if_pos ⟨rfl, digitChar_isDigit h1 h9⟩, digitChar_toNat h1 h9]

theorem findRefs_skip : ∀ (a s : List Char), (∀ x ∈ a, x ≠ '#') →
    findRefs (a ++ s) = findRefs s
  | [], _, _ => rfl
  | x :: a2, s, h => by
    have hx : x ≠ '#' := h x (by simp)
    cases ha2 : a2 ++ s with
    | nil =>
      obtain ⟨ha, hs⟩ := List.append_eq_nil.mp ha2
      subst ha
      subst hs
      rfl
    | cons y ys =>
      rw [show (x :: a2) ++ s = x :: (a2 ++ s) from rfl, ha2, findRefs,
        if_neg (by rintro ⟨hc, -⟩; exact hx hc), ← ha2]
      exact findRefs_skip a2 s fun z hz => h z (by simp [hz])

theorem findRefs_clean {s : List Char} (hs : ∀ x ∈ s, x ≠ '#') : findRefs s = [] := by
  have := findRefs_skip s [] hs
  simpa using this

theorem pyGet_pos (values : List (List Char)) (d : Nat) (h1 : 1 ≤ d) :
    pyGet values ((d : Int) - 1) = values[d - 1]? := by
  unfold pyGet
  rw [if_pos (by omega : (0 : Int) ≤ (d : Int) - 1)]
  have : ((d : Int) - 1).toNat = d - 1 := by omega
  rw [this]

/-- C3 (amended): a lone in-range reference `#d` expands to
`values[d-1]`; and when the pieces around two occurrences of the same
token, and the substituted value itself, contain no `#` (so that no
token can be formed or destroyed by the replacement), both occurrences
of `#d` in the larger mask expand to the same value `values[d-1]`. -/
theorem C3_demask_single_and_repeated :
    (∀ (values : List (List Char)) (d : Nat), 1 ≤ d → d ≤ 9 → d ≤ values.length →
      demask values (refTok d) = values[d - 1]?) ∧
    (∀ (values : List (List Char)) (d : Nat) (a b c v : List Char),
      1 ≤ d → d ≤ 9 → values[d - 1]? = some v →
      (∀ x ∈ a, x ≠ '#') → (∀ x ∈ b, x ≠ '#') → (∀ x ∈ c, x ≠ '#') →
      (∀ x ∈ v, x ≠ '#') →
      demask values (a ++ refTok d ++ b ++ refTok d ++ c) =
        some (a ++ v ++ b ++ v ++ c)) := by
  constructor
  · intro values d h1 h9 hlen
    have hvex : ∃ v, values[d - 1]? = some v := by
      have hlt : d - 1 < values.length := by omega
      exact ⟨values[d - 1], List.getElem?_eq_getElem hlt⟩
    obtain ⟨v, hv⟩ := hvex
    have hrefs : findRefs (refTok d) = [d] := by
      have := findRefs_tok_cons d h1 h9 []
      simpa using this
    have hrw : replaceAll (refTok d) v (refTok d) = v := by
      have := replaceAll_pos (refTok d) v [] (by simp [refTok])
      simpa [replaceAll_nil] using this
    have hstep : demaskStep values (refTok d) d = some v := by
      unfold demaskStep
      rw [pyGet_pos values d h1, hv]
      show some (replaceAll (refTok d) v (refTok d)) = some v
      rw [hrw]
    unfold demask
    rw [hrefs, hv]
    simp [List.foldlM, hstep]
  · intro values d a b c v h1 h9 hv ha hb hc hvclean
    have hrefsR : findRefs (a ++ (refTok d ++ (b ++ (refTok d ++ c)))) = [d, d] := by
      rw [findRefs_skip a _ ha, findRefs_tok_cons d h1 h9, findRefs_skip b _ hb,
        findRefs_tok_cons d h1 h9, findRefs_clean hc]
    have e1 : replaceAll (refTok d) v (a ++ (refTok d ++ (b ++ (refTok d ++ c)))) =
        a ++ replaceAll (refTok d) v (refTok d ++ (b ++ (refTok d ++ c))) :=
      @replaceAll_skip '#' [digitChar d] v a _ ha
    have e2 : replaceAll (refTok d) v (refTok d ++ (b ++ (refTok d ++ c))) =
        v ++ replaceAll (refTok d) v (b ++ (refTok d ++ c)) :=
      replaceAll_pos _ _ _ (by simp [refTok])
    have e3 : replaceAll (refTok d) v (b ++ (refTok d ++ c)) =
        b ++ replaceAll (refTok d) v (refTok d ++ c) :=
      @replaceAll_skip '#' [digitChar d] v b _ hb
    have e4 : replaceAll (refTok d) v (refTok d ++ c) = v ++ replaceAll (refTok d) v c :=
      replaceAll_pos _ _ _ (by simp [refTok])
    have e5 : replaceAll (refTok d) v c = c :=
      @replaceAll_clean_id '#' [digitChar d] v c hc
    have hm1R : replaceAll (refTok d) v (a ++ (refTok d ++ (b ++ (refTok d ++ c)))) =
        a ++ (v ++ (b ++ (v ++ c))) := by
      rw [e1, e2, e3, e4, e5]
    have hcleanR : ∀ x ∈ a ++ (v ++ (b ++ (v ++ c))), x ≠ '#' := by
      intro x hx
      simp only [List.mem_append] at hx
      rcases hx with hx | hx | hx | hx | hx
      · exact ha x hx
      · exact hvclean x hx
      · exact hb x hx
      · exact hvclean x hx
      · exact hc x hx
    have hm2R : replaceAll (refTok d) v (a ++ (v ++ (b ++ (v ++ c)))) =
        a ++ (v ++ (b ++ (v ++ c))) :=
      @replaceAll_clean_id '#' [digitChar d] v _ hcleanR
    have hstep1R : demaskStep values (a ++ (refTok d ++ (b ++ (refTok d ++ c)))) d =
        some (a ++ (v ++ (b ++ (v ++ c)))) := by
      unfold demaskStep
      rw [pyGet_pos values d h1, hv]
      show some (replaceAll (refTok d) v (a ++ (refTok d ++ (b ++ (refTok d ++ c))))) = _
      rw [hm1R]
    have hstep2R : demaskStep values (a ++ (v ++ (b ++ (v ++ c)))) d =
        some (a ++ (v ++ (b ++ (v ++ c)))) := by
      unfold demaskStep
      rw [pyGet_pos values d h1, hv]
      show some (replaceAll (refTok d) v (a ++ (v ++ (b ++ (v ++ c))))) = _
      rw [hm2R]
    have hgoalR : demask values (a ++ (refTok d ++ (b ++ (refTok d ++ c)))) =
        some (a ++ (v ++ (b ++ (v ++ c)))) := by
      unfold demask
      rw [hrefsR]
      simp [List.foldlM, hstep1R, hstep2R]
    simpa [List.append_assoc] using hgoalR

/-- C3 counterexample: with `values = ["#", "Z"]` and mask
`"#12#1x#2"` the two occurrences of the token `#1` do not expand to
`str(values[0]) = "#"`: sequential replacement lets the first
occurrence merge with the following `2` into a new token `#2`, which a
later pass rewrites to `Z`, so the result differs from the spec's
per-occurrence expansion (`expandSim`). -/
theorem C3_interference_counterexample :
    demask ["#".toList, "Z".toList] "#12#1x#2".toList = some "Z#xZ".toList ∧
    expandSim ["#".toList, "Z".toList] "#12#1x#2".toList = "#2#xZ".toList ∧
    demask ["#".toList, "Z".toList] "#12#1x#2".toList ≠
      some (expandSim ["#".toList, "Z".toList] "#12#1x#2".toList) := by
  decide

/-- Witness for C3 at concrete inputs. -/
theorem C3_demask_single_and_repeated_witness :
    demask ["AA".toList, "B".toList] (refTok 2) = ["AA".toList, "B".toList][2 - 1]? ∧
    demask ["Q".toList] ("x".toList ++ refTok 1 ++ "_".toList ++ refTok 1 ++ "y".toList) =
      some ("x".toList ++ "Q".toList ++ "_".toList ++ "Q".toList ++ "y".toList) :=
  ⟨C3_demask_single_and_repeated.1 ["AA".toList, "B".toList] 2 (by decide) (by decide)
      (by decide),
    C3_demask_single_and_repeated.2 ["Q".toList] 1 "x".toList "_".toList "y".toList
      "Q".toList (by decide) (by decide) (by decide) (by decide) (by decide) (by decide)
      (by decide)⟩

/-! ### Claim C1: end-to-end roster naming -/

/-- C1 counterexample: for the record (Identifier `"Participant 5"`,
Full name `"Ann Lee"`, ID number `"S100"`) with `file_mask = ""` and
`folder_mask = "file"`, expanding `#2_#1_assignsubmission_file_` over
the values (MoodleID, FullName, StudentID) puts the full name first:
the folder is `Ann Lee_5_assignsubmission_file_`, not the claimed
`5_Ann Lee_assignsubmission_file_`. -/
theorem C1_roster_path_counterexample :
    solutionsPdfPath "solutions".toList "".toList "file".toList "_sols".toList
        "Participant 5".toList "Ann Lee".toList "S100".toList =
      some "solutions/Ann Lee_5_assignsubmission_file_/Ann Lee_S100_sols.pdf".toList ∧
    solutionsPdfPath "solutions".toList "".toList "file".toList "_sols".toList
        "Participant 5".toList "Ann Lee".toList "S100".toList ≠
      some "solutions/5_Ann Lee_assignsubmission_file_/Ann Lee_S100_sols.pdf".toList := by
  decide

/-- C1 (amended): the solutions PDF of the record is placed at
`solutions/Ann Lee_5_assignsubmission_file_/Ann Lee_S100_sols.pdf`:
the folder is the expansion of `#2_#1_assignsubmission_<folder_mask>_`
and the file the expansion of `<file_mask>#2_#3<sol_stem>` over
(MoodleID, FullName, StudentID) with the `"Participant "` prefix
stripped from the Identifier. -/
theorem C1_roster_path_amended :
    solutionsPdfPath "solutions".toList "".toList "file".toList "_sols".toList
        "Participant 5".toList "Ann Lee".toList "S100".toList =
      some "solutions/Ann Lee_5_assignsubmission_file_/Ann Lee_S100_sols.pdf".toList := by
  decide

/-! ### Claim C4: out-of-range references abort -/

theorem foldlM_demaskStep_none (values : List (List Char)) {i : Nat}
    (hfail : ∀ m, demaskStep values m i = none) :
    ∀ (l : List Nat), i ∈ l → ∀ m0, List.foldlM (demaskStep values) m0 l = none := by
  intro l
  induction l with
  | nil => intro h; simp at h
  | cons j rest ih =>
    intro hmem m0
    rw [List.foldlM_cons]
    cases hj : demaskStep values m0 j with
    | none => rfl
    | some m1 =>
      rcases List.mem_cons.mp hmem with h1 | h2
      · subst h1
        rw [hfail m0] at hj
        cases hj
      · show (some m1 >>= fun b => List.foldlM (demaskStep values) b rest) = none
        show List.foldlM (demaskStep values) m1 rest = none
        exact ih h2 m1

/-- A reference digit larger than the number of values makes `demask`
raise (`values[d-1]` is out of range), no matter where in the mask the
reference sits. -/
theorem demask_none_of_out_of_range (values : List (List Char)) (mask : List Char)
    (d : Nat) (hmem : d ∈ findRefs mask) (hgt : values.length < d) :
    demask values mask = none := by
  have hstep : ∀ m, demaskStep values m d = none := by
    intro m
    unfold demaskStep
    have hpy : pyGet values ((d : Int) - 1) = none := by
      unfold pyGet
      rw [if_pos (by omega : (0 : Int) ≤ (d : Int) - 1)]
      have : ((d : Int) - 1).toNat = d - 1 := by omega
      rw [this]
      exact List.getElem?_eq_none (by omega)
    rw [hpy]
    rfl
  exact foldlM_demaskStep_none values hstep (findRefs mask) hmem mask

/-! ### The per-record driver as an event trace
(`compile_files` and `gen_files`, genassign.py 300-381 and 543-593) -/

/-- The only exception the per-record path can raise in this model:
the `IndexError` coming out of `demask`.  (`move_pdf` catches its own
exceptions, and the driver never inspects the exit status of the
external tool invocations.) -/
inductive PyErr where
  | indexError
deriving DecidableEq

/-- Externally visible actions of the per-record driver, in order. -/
inductive Ev where
  | render
  | setHiddenEv (hidden : Bool)
  | pdflatex
  | pythontex
  | movePdf (root file folder : List Char) (encrypt : Bool)
  | cleanGlobTmp
  | removeCommentCut
  | removePythontexDir
deriving DecidableEq

/-- The program parameters carried in `params` (a `SimpleNamespace` in
the source).  `generic` stands for both `params.generic` and the
module-level `args.generic` the source reads at line 349; they are the
same value because `params` is built from `args`. -/
structure Params where
  file_mask : List Char
  folder_mask : List Char
  gen_paper : Bool
  encrypt : Bool
  generic : Bool
  sol_stem : List Char
  paper_stem : List Char
  root : List Char
  questdir : List Char
  password : List Char

/-- The file mask used for the solutions pass:
`file_mask += params.sol_stem` unless generic (genassign.py 347-350). -/
def solutions_file_mask (p : Params) : List Char :=
  p.file_mask ++ (if p.generic then [] else p.sol_stem)

/-- Source `compile_files(values, tmpfile, params)` (genassign.py 300-381) as
the pair (trace of actions, exception escaping it): toggle shown, the
fixed `pdflatex; pythontex; pdflatex` sequence, placement of the
solutions PDF using `demask`ed names, and — when a paper is requested
and the mode is not generic — toggle hidden, `pdflatex; pdflatex`, and
placement of the paper PDF.  A `none` from `demask` is the uncaught
`IndexError`, which aborts the rest of the function. -/
def compile_files (values : List (List Char)) (p : Params) : List Ev × Option PyErr :=
  match demask values (solutions_file_mask p), demask values p.folder_mask with
  | none, _ =>
    ([.setHiddenEv false, .pdflatex, .pythontex, .pdflatex], some .indexError)
  | some _, none =>
    ([.setHiddenEv false, .pdflatex, .pythontex, .pdflatex], some .indexError)
  | some f, some d =>
    if p.gen_paper && !p.generic then
      match demask values (p.file_mask ++ p.paper_stem), demask values p.folder_mask with
      | none, _ =>
        ([.setHiddenEv false, .pdflatex, .pythontex, .pdflatex,
          .movePdf p.root f d p.encrypt, .setHiddenEv true, .pdflatex, .pdflatex],
          some .indexError)
      | some _, none =>
        ([.setHiddenEv false, .pdflatex, .pythontex, .pdflatex,
          .movePdf p.root f d p.encrypt, .setHiddenEv true, .pdflatex, .pdflatex],
          some .indexError)
      | some f2, some d2 =>
        ([.setHiddenEv false, .pdflatex, .pythontex, .pdflatex,
          .movePdf p.root f d p.encrypt, .setHiddenEv true, .pdflatex, .pdflatex,
          .movePdf p.questdir f2 d2 p.encrypt], none)
    else
      ([.setHiddenEv false, .pdflatex, .pythontex, .pdflatex,
        .movePdf p.root f d p.encrypt], none)

/-- The three cleanup actions of `gen_files`'s `finally` block
(genassign.py 585-593): remove every `tmpfile.*` match, remove
`comment.cut` if present, remove `pythontex-files-<tmpfile>` if
present. -/
def cleanupEvs : List Ev := [.cleanGlobTmp, .removeCommentCut, .removePythontexDir]

/-- Python `try: body finally: fin` for a trace-producing body: the
finaliser actions always run, and the body's exception (if any) is
re-raised afterwards. -/
def tryFinallyTr (body : List Ev × Option PyErr) (fin : List Ev) : List Ev × Option PyErr :=
  (body.1 ++ fin, body.2)

/-- Source `gen_files` (genassign.py 543-593): render (outside the `try`),
then `compile_files` guarded by the `finally` cleanup. -/
def gen_files (values : List (List Char)) (p : Params) : List Ev × Option PyErr :=
  let r := tryFinallyTr (compile_files values p) cleanupEvs
  (Ev.render :: r.1, r.2)

/-- Source `df.apply(gen_files, ...)` (genassign.py 691-693): rows processed
in order, one fully after another; an exception escaping `gen_files`
propagates out of `apply` and ends the run with the remaining rows
unprocessed. -/
def run_rows (p : Params) : List (List (List Char)) → List Ev × Option PyErr
  | [] => ([], none)
  | v :: rest =>
    match gen_files v p with
    | (tr, some e) => (tr, some e)
    | (tr, none) =>
      let r := run_rows p rest
      (tr ++ r.1, r.2)

/-- C4: an in-mask reference digit `d` exceeding the number of values
makes `demask` fail with the `IndexError`-class condition; the error is
caught nowhere on the per-record path, so `compile_files` ends with it,
`gen_files` re-raises it after its cleanup, and the whole run aborts
with the remaining rows unprocessed. -/
theorem C4_out_of_range_aborts :
    (∀ (values : List (List Char)) (mask : List Char) (d : Nat),
      d ∈ findRefs mask → values.length < d → demask values mask = none) ∧
    (∀ (values : List (List Char)) (p : Params) (d : Nat),
      (d ∈ findRefs (solutions_file_mask p) ∨ d ∈ findRefs p.folder_mask) →
      values.length < d → (compile_files values p).2 = some .indexError) ∧
    (∀ (values : List (List Char)) (p : Params),
      (gen_files values p).2 = (compile_files values p).2) ∧
    (∀ (values : List (List Char)) (rest : List (List (List Char))) (p : Params)
      (e : PyErr), (gen_files values p).2 = some e →
      run_rows p (values :: rest) = ((gen_files values p).1, some e)) := by
  refine ⟨demask_none_of_out_of_range, ?_, ?_, ?_⟩
  · intro values p d hmem hgt
    unfold compile_files
    rcases hmem with hmem | hmem
    · rw [demask_none_of_out_of_range values _ d hmem hgt]
    · cases hfm : demask values (solutions_file_mask p) with
      | none => rfl
      | some f => rw [demask_none_of_out_of_range values _ d hmem hgt]
  · intro values p
    rfl
  · intro values rest p e he
    unfold run_rows
    cases hg : gen_files values p with
    | mk tr oe =>
      rw [hg] at he
      simp at he
      subst he
      rfl

/-- Witness for C4 at a concrete record and parameter set. -/
theorem C4_out_of_range_aborts_witness :
    demask [] "#3".toList = none ∧
    (compile_files [] ⟨"#3".toList, [], true, false, false, [], [], [], [], []⟩).2 =
      some PyErr.indexError ∧
    run_rows ⟨"#3".toList, [], true, false, false, [], [], [], [], []⟩ [[]] =
      ((gen_files [] ⟨"#3".toList, [], true, false, false, [], [], [], [], []⟩).1,
        some PyErr.indexError) :=
  ⟨C4_out_of_range_aborts.1 [] "#3".toList 3 (by decide) (by decide),
    C4_out_of_range_aborts.2.1 []
      ⟨"#3".toList, [], true, false, false, [], [], [], [], []⟩ 3
      (Or.inl (by decide)) (by decide),
    C4_out_of_range_aborts.2.2.2 [] []
      ⟨"#3".toList, [], true, false, false, [], [], [], [], []⟩
      PyErr.indexError (by decide)⟩

/-! ### Claim C8: guaranteed per-record cleanup -/

/-- The glob pattern `tmpfile.*`: names starting with the temp
basename followed by a dot (genassign.py 586). -/
def matchesTmpGlob (tmp f : List Char) : Bool := (tmp ++ ".".toList).isPrefixOf f

/-- The per-run PythonTeX working directory name (genassign.py 591). -/
def pythontexDir (tmp : List Char) : List Char := "pythontex-files-".toList ++ tmp

/-- Effect of `gen_files`'s `finally` block on the working directory
contents (genassign.py 585-593): every `tmpfile.*` match is removed,
`comment.cut` is removed if present, and the directory
`pythontex-files-<tmpfile>` is removed if present.  `files`/`dirs` are
whatever the render and the external toolchain left behind. -/
def cleanupFs (tmp : List Char) (files dirs : List (List Char)) :
    List (List Char) × List (List Char) :=
  (files.filter fun f => !matchesTmpGlob tmp f && f != "comment.cut".toList,
    dirs.filter fun d2 => d2 != pythontexDir tmp)

/-- C8: for every record the cleanup actions run after `compile_files`
whether it returned or raised (the trace of `gen_files` always ends
with them), and the resulting state contains no `tmpfile.*` file, no
`comment.cut`, and no `pythontex-files-<tmpfile>` directory. -/
theorem C8_cleanup_guaranteed :
    (∀ (values : List (List Char)) (p : Params),
      (gen_files values p).1 = Ev.render :: (compile_files values p).1 ++ cleanupEvs) ∧
    (∀ (tmp : List Char) (files dirs : List (List Char)) (f : List Char),
      f ∈ (cleanupFs tmp files dirs).1 →
        matchesTmpGlob tmp f = false ∧ f ≠ "comment.cut".toList) ∧
    (∀ (tmp : List Char) (files dirs : List (List Char)),
      pythontexDir tmp ∉ (cleanupFs tmp files dirs).2) := by
  refine ⟨fun values p => rfl, ?_, ?_⟩
  · intro tmp files dirs f hf
    unfold cleanupFs at hf
    rw [List.mem_filter] at hf
    have h2 := hf.2
    simp only [Bool.and_eq_true, Bool.not_eq_true', bne_iff_ne] at h2
    exact h2
  · intro tmp files dirs
    unfold cleanupFs
    intro hmem
    rw [List.mem_filter] at hmem
    simp at hmem

/-- Witness for C8 at a concrete state. -/
theorem C8_cleanup_guaranteed_witness :
    matchesTmpGlob "t".toList "a.txt".toList = false ∧
      "a.txt".toList ≠ "comment.cut".toList :=
  C8_cleanup_guaranteed.2.1 "t".toList ["a.txt".toList, "t.pdf".toList] []
    "a.txt".toList (by decide)

/-! ### Claim C9: toolchain invocation order -/

/-- Which driver actions are external-toolchain invocations. -/
def isToolEv : Ev → Bool
  | .pdflatex => true
  | .pythontex => true
  | _ => false

/-- C9: on a record whose mask expansion succeeds, the solutions
compilation invokes the toolchain exactly as `pdflatex, pythontex,
pdflatex`, and the paper recompilation — performed exactly when
requested and not generic — invokes `pdflatex` exactly twice and never
`pythontex`. -/
theorem C9_toolchain_order (values : List (List Char)) (p : Params) :
    (compile_files values p).2 = none →
    (compile_files values p).1.filter isToolEv =
      [Ev.pdflatex, Ev.pythontex, Ev.pdflatex] ++
        (if p.gen_paper && !p.generic then [Ev.pdflatex, Ev.pdflatex] else []) := by
  unfold compile_files
  cases h1 : demask values (solutions_file_mask p) with
  | none => intro hok; simp at hok
  | some f =>
    cases h2 : demask values p.folder_mask with
    | none => intro hok; simp at hok
    | some d =>
      by_cases hgp : (p.gen_paper && !p.generic) = true
      · simp only [hgp, if_true]
        cases h3 : demask values (p.file_mask ++ p.paper_stem) with
        | none => intro hok; simp at hok
        | some f2 =>
          intro _
          simp [isToolEv, List.filter]
      · rw [Bool.not_eq_true] at hgp
        simp only [hgp, if_false]
        intro _
        simp [isToolEv, List.filter]

/-- Witness for C9 at a concrete record and parameter set. -/
theorem C9_toolchain_order_witness :
    (compile_files [] ⟨[], [], true, false, false, [], [], [], [], []⟩).2 = none ∧
    (compile_files [] ⟨[], [], true, false, false, [], [], [], [], []⟩).1.filter isToolEv =
      [Ev.pdflatex, Ev.pythontex, Ev.pdflatex] ++
        (if (true : Bool) && !(false : Bool) then [Ev.pdflatex, Ev.pdflatex] else []) :=
  ⟨by decide, C9_toolchain_order [] ⟨[], [], true, false, false, [], [], [], [], []⟩
    (by decide)⟩

/-! ### Claim C7: output placement (`move_pdf`, genassign.py 383-433) -/

/-- A path as its components; single-component paths are relative to
the current working directory, which is where the run executes. -/
abbrev FPath := List (List Char)

/-- The relevant file-system state: the file paths and the directory
paths that exist. -/
structure FS where
  files : List FPath
  dirs : List FPath
deriving DecidableEq

/-- Python `os.path.exists`. -/
def fsExists (fs : FS) (p : FPath) : Bool := fs.files.contains p || fs.dirs.contains p

/-- Whether `p` is `pre` itself or lies below it. -/
def pathUnder (pre p : FPath) : Bool := pre.isPrefixOf p

/-- Python `os.rename src dst`: a missing source is `FileNotFoundError`
(modelled `none`); otherwise the source and everything below it is
re-rooted at `dst`. -/
def fsRename (fs : FS) (src dst : FPath) : Option FS :=
  if fsExists fs src then
    some ⟨fs.files.map fun q => if pathUnder src q then dst ++ q.drop src.length else q,
      fs.dirs.map fun q => if pathUnder src q then dst ++ q.drop src.length else q⟩
  else none

/-- Python `shutil.rmtree p` with the `remove_readonly` handler (genassign.py
291-297), which forces read-only entries writable so deletion always
proceeds: removes the directory and everything below it; fails when
`p` is not an existing directory. -/
def fsRmtree (fs : FS) (p : FPath) : Option FS :=
  if fs.dirs.contains p then
    some ⟨fs.files.filter fun q => !pathUnder p q, fs.dirs.filter fun q => !pathUnder p q⟩
  else none

/-- Python `os.mkdir p`: raises `FileExistsError` when `p` already exists. -/
def fsMkdir (fs : FS) (p : FPath) : Option FS :=
  if fsExists fs p then none else some ⟨fs.files, p :: fs.dirs⟩

/-- Python `os.remove p` on an existing file. -/
def fsRemoveFile (fs : FS) (p : FPath) : FS := ⟨fs.files.erase p, fs.dirs⟩

/-- Python `shutil.move src dst` with `dst` the full target path. -/
def fsMoveFile (fs : FS) (src dst : FPath) : Option FS :=
  if fs.files.contains src then some ⟨dst :: fs.files.erase src, fs.dirs⟩ else none

/-- The last two steps of `move_pdf`: `os.mkdir(file_path)` and
`shutil.move(file_pdf, os.path.join(file_path, file_pdf))`
(genassign.py 429-430); a failure is caught by the blanket `except`
(genassign.py 431-432), which prints the error, modelled by the `true`
flag of the result. -/
def move_pdf_finish (fs : FS) (root folder file_pdf : List Char) : FS × Bool :=
  match fsMkdir fs [root, folder] with
  | none => (fs, true)
  | some fs7 =>
    match fsMoveFile fs7 [file_pdf] [root, folder, file_pdf] with
    | none => (fs7, true)
    | some fs8 => (fs8, false)

/-- Source `move_pdf(tmpfile, root, file, folder, encrypt, password)`
(genassign.py 383-433) over the file-system state; the Boolean result
records whether the blanket `except` caught an exception and printed
the error message.  `encrypt_pdf` copies the file to a temp name,
removes the original, re-saves it under the original name and deletes
the temp copy, so its net effect on the existence state is the
identity and it is modelled as such; the password does not affect the
state.  Note the source checks `os.path.exists(os.path.join(root,
folder))` but then calls `os.rename(folder, old)` on the plain,
working-directory-relative `folder`. -/
def move_pdf (fs : FS) (tmpfile root file folder : List Char) : FS × Bool :=
  let file_pdf := file ++ ".pdf".toList
  let fs1 := if fs.files.contains [file_pdf] then fsRemoveFile fs [file_pdf] else fs
  match fsRename fs1 [tmpfile ++ ".pdf".toList] [file_pdf] with
  | none => (fs1, true)
  | some fs2 =>
    let fs4 := if fsExists fs2 [root] then fs2 else ⟨fs2.files, [root] :: fs2.dirs⟩
    if fsExists fs4 [root, folder] then
      match fsRename fs4 [folder] [folder ++ "_".toList ++ tmpfile] with
      | none => (fs4, true)
      | some fs5 =>
        match fsRmtree fs5 [folder ++ "_".toList ++ tmpfile] with
        | none => (fs5, true)
        | some fs6 => move_pdf_finish fs6 root folder file_pdf
    else move_pdf_finish fs4 root folder file_pdf

/-- C7: evaluation at the failing input.  The target directory
`r/d` exists at placement time and no entry named `d` exists in the
working directory (the normal situation, since per-record folders are
created under `r` only).  The claimed behaviour is that `r/d` is
purged, recreated and receives `f.pdf`; the code instead calls
`os.rename` on the working-directory-relative `d`, which raises
`FileNotFoundError`, so the blanket `except` fires (flag `true`),
`r/d` is left untouched and the PDF is stranded in the working
directory as `f.pdf`. -/
theorem C7_move_pdf_existing_folder_fails :
    move_pdf ⟨[["t.pdf".toList]], [["r".toList], ["r".toList, "d".toList]]⟩
        "t".toList "r".toList "f".toList "d".toList =
      (⟨[["f.pdf".toList]], [["r".toList], ["r".toList, "d".toList]]⟩, true) ∧
    ["r".toList, "d".toList, "f.pdf".toList] ∉
      (move_pdf ⟨[["t.pdf".toList]], [["r".toList], ["r".toList, "d".toList]]⟩
        "t".toList "r".toList "f".toList "d".toList).1.files := by
  decide

/-! ### Claim C10: the template renderer (`render_file`, genassign.py 261-288) -/

/-- A parsed template: literal text interleaved with `\VAR{name}`
placeholders (the jinja2 environment built by `make_template`). -/
inductive TItem where
  | text (s : List Char)
  | var (name : List Char)

/-- Lookup in `dict(zip(keys, values))`: `dict` keeps the last pair
for a duplicated key, so lookup scans the reversed pair list. -/
def dictLookup (pairs : List (List Char × List Char)) (k : List Char) :
    Option (List Char) :=
  List.lookup k pairs.reverse

/-- Source `template.render(**options)`: substitute every placeholder by its
value; names missing from the mapping render as the empty string (the
jinja2 default `Undefined`). -/
def renderTemplate (tmpl : List TItem) (pairs : List (List Char × List Char)) : List Char :=
  (tmpl.map fun item =>
    match item with
    | .text s => s
    | .var k => (dictLookup pairs k).getD []).flatten

/-- Source `render_file(values, keys, template, tmpfile)`: build
`options = dict(zip(keys, values))` and render the template; the
result is the document text written to the temp `.tex` file. -/
def render_file (values keys : List (List Char)) (tmpl : List TItem) : List Char :=
  renderTemplate tmpl (keys.zip values)

theorem zip_take_take : ∀ (keys values : List (List Char)),
    keys.zip values = (keys.take values.length).zip (values.take keys.length) := by
  intro keys
  induction keys with
  | nil => intro values; simp
  | cons k ks ih =>
    intro values
    cases values with
    | nil => simp
    | cons v vs =>
      show (k, v) :: ks.zip vs = (k, v) :: (ks.take vs.length).zip (vs.take ks.length)
      rw [ih vs]

theorem lookup_eq_none {pairs : List (List Char × List Char)} {k : List Char}
    (h : ∀ p ∈ pairs, p.1 ≠ k) : List.lookup k pairs = none := by
  induction pairs with
  | nil => rfl
  | cons q rest ih =>
    have hq : q.1 ≠ k := h q (by simp)
    have hbeq : (k == q.1) = false := by
      rw [beq_eq_false_iff_ne]
      exact fun hcontra => hq hcontra.symm
    rw [show q = (q.1, q.2) from rfl, List.lookup, hbeq]
    exact ih fun p hp => h p (by simp [hp])

/-- C10: `render_file` with `keys` and `values` of unequal length
raises nothing; the mapping is built from only the first
`min(len keys, len values)` positional pairs, so surplus values are
ignored and a surplus key is absent from the mapping and renders as
the empty string at every placeholder. -/
theorem C10_render_zip_truncation :
    (∀ (values keys : List (List Char)) (tmpl : List TItem),
      render_file values keys tmpl =
        render_file (values.take keys.length) (keys.take values.length) tmpl) ∧
    (∀ (keys values : List (List Char)) (k : List Char),
      k ∉ keys.take values.length →
        dictLookup (keys.zip values) k = none ∧
          renderTemplate [TItem.var k] (keys.zip values) = []) := by
  constructor
  · intro values keys tmpl
    unfold render_file
    rw [zip_take_take keys values]
  · intro keys values k hk
    have hnone : dictLookup (keys.zip values) k = none := by
      unfold dictLookup
      apply lookup_eq_none
      intro p hp
      rw [List.mem_reverse] at hp
      rw [zip_take_take keys values] at hp
      have := List.of_mem_zip hp
      intro hcontra
      exact hk (hcontra ▸ this.1)
    refine ⟨hnone, ?_⟩
    simp [renderTemplate, hnone]

/-- Witness for C10 at concrete unequal-length inputs. -/
theorem C10_render_zip_truncation_witness :
    dictLookup ((["A".toList, "B".toList]).zip ["x".toList]) "B".toList = none ∧
      renderTemplate [TItem.var "B".toList]
        ((["A".toList, "B".toList]).zip ["x".toList]) = [] :=
  C10_render_zip_truncation.2 ["A".toList, "B".toList] ["x".toList] "B".toList (by decide)
